import Mathlib

/-!
Verification of the permissions-guard core: rule parsing, rule matching,
aggregate matching, context-scoped permission and ownership checks, and
the variable-binding merge used by inheriting grant scopes.

The definitions below are a shallow embedding of
`src/lib/components/PermissionsGuardClass.ts` (and, where noted, of
`src/lib/utils/mergeVariables` and of the spec for the inheriting variant
of `runWithPermissions`). JS strings are modelled as Lean `String`s, with
the character-level operations (`split('/')`, `trim`) carried out on
`String.toList` so that everything reduces by `decide`/`rfl`.
-/

/-- Errors surfaced by the guard.  `permissionError` models the
`PermissionError` class (carrying its message), `permissionRuleError`
models `PermissionRuleError` (carrying `required` and `notMatched`),
and `jsError` models a plain JavaScript `Error` (the nesting error and
the invalid-rules error). -/
inductive PGError where
  | permissionError (msg : String)
  | permissionRuleError (required notMatched : List String)
  | jsError (msg : String)
  deriving DecidableEq, Repr

/-- A value passed where a rule string is expected: either an actual
string or some non-string JS value (rejected by the `typeof` check in
`parseRule`). -/
inductive RuleInput where
  | str (s : String)
  | nonString
  deriving DecidableEq, Repr

/-- JS `String.prototype.split('/')` on the character list: splits on
every `/`, keeping empty pieces (as JS does). -/
def splitOnSlash : List Char → List (List Char)
  | [] => [[]]
  | c :: rest =>
      match splitOnSlash rest with
      | [] => [[]]
      | seg :: restSegs =>
          if c = '/' then [] :: seg :: restSegs
          else (c :: seg) :: restSegs

/-- Whitespace characters removed by `String.prototype.trim` (restricted
to the ASCII whitespace relevant here). -/
def isJsSpace (c : Char) : Bool :=
  c = ' ' || c = '\t' || c = '\n' || c = '\r'

/-- JS `String.prototype.trim` on the character list. -/
def trimChars (cs : List Char) : List Char :=
  ((cs.dropWhile isJsSpace).reverse.dropWhile isJsSpace).reverse

/-- The regex test `/[\n\r\t]/.test(rule)` from `parseRule`. -/
def hasControlChar (s : String) : Bool :=
  s.toList.any (fun c => c = '\n' || c = '\r' || c = '\t')

/-- The segment list produced by `parseRule` for a valid rule string:
`rule.split('/').filter(Boolean).map(i => i.trim())`. -/
def segs (s : String) : List String :=
  ((splitOnSlash s.toList).filter (fun cs => !cs.isEmpty)).map
    (fun cs => String.mk (trimChars cs))

/-- `PermissionsGuardClass.parseRule`: validates the rule value (string
type, length at most 2048, no newline/tab/carriage return) and splits it
into trimmed non-empty segments. -/
def parseRule : RuleInput → Except PGError (List String)
  | .nonString => .error (.permissionError "Permission rule must be a string")
  | .str s =>
      if s.length > 2048 then
        .error (.permissionError "Permission rule is too long")
      else if hasControlChar s then
        .error (.permissionError "Invalid characters in permission rule")
      else
        .ok (segs s)

/-- `parseRule` specialised to actual strings. -/
def parseRuleStr (s : String) : Except PGError (List String) :=
  parseRule (.str s)

/-- A rule string that passes `parseRule`'s validity checks. -/
def ruleOkStr (s : String) : Bool :=
  !(decide (s.length > 2048)) && !hasControlChar s

/-- The message with which `parseRule` rejects a malformed rule value,
mirroring the order of its guard clauses; `none` for well-formed input. -/
def malformedMsg : RuleInput → Option String
  | .nonString => some "Permission rule must be a string"
  | .str s =>
      if s.length > 2048 then some "Permission rule is too long"
      else if hasControlChar s then some "Invalid characters in permission rule"
      else none

/-- The segment-walking loop of `PermissionsGuardClass.matchRule`: both
lists are consumed in lock-step; a granted `**` succeeds immediately, a
granted `*` consumes one required segment, a literal must be equal; the
final verdict requires both lists to be exhausted together. -/
def matchRuleParts : List String → List String → Bool
  | [], [] => true
  | [], _ :: _ => false
  | _ :: _, [] => false
  | r :: rs, g :: gs =>
      if g = "**" then true
      else if g = "*" then matchRuleParts rs gs
      else if g ≠ r then false
      else matchRuleParts rs gs

/-- `PermissionsGuardClass.matchRule`: parses both rules and runs the
segment-walking loop. -/
def matchRule (requiredRule rule : String) : Except PGError Bool := do
  let requiredRuleParts ← parseRuleStr requiredRule
  let ruleParts ← parseRuleStr rule
  pure (matchRuleParts requiredRuleParts ruleParts)

/-- The inner loop of `PermissionsGuardClass.match`: the first granted
rule (in supplied order) matching the required rule, or `none`. -/
def findMatched (requiredRule : String) : List String → Except PGError (Option String)
  | [] => .ok none
  | rule :: rest => do
      let ok ← matchRule requiredRule rule
      if ok then pure (some rule) else findMatched requiredRule rest

/-- The accumulation loop of `PermissionsGuardClass.match`: returns the
`notMatched` list and the `matched` pair list, in required-rule order. -/
def matchLoop (rules : List String) :
    List String → Except PGError (List String × List (String × String))
  | [] => .ok ([], [])
  | requiredRule :: rest => do
      let m ← findMatched requiredRule rules
      let (notMatched, matched) ← matchLoop rules rest
      match m with
      | none => pure (requiredRule :: notMatched, matched)
      | some rule => pure (notMatched, (requiredRule, rule) :: matched)

/-- `PermissionsGuardClass.match`: throws `PermissionRuleError` carrying
the full required list and the `notMatched` subset when the latter is
non-empty, and otherwise returns the matched pairs. -/
def matchRules (requiredRules rules : List String) :
    Except PGError (List (String × String)) := do
  let (notMatched, matched) ← matchLoop rules requiredRules
  if notMatched.isEmpty then pure matched
  else .error (.permissionRuleError requiredRules notMatched)

/-- Owner values: an ordinary owner token (a string in the default
instantiation) or the `ownerBypassSymbol` sentinel used by
`runWithPermissionsBypassOwner`. -/
inductive Owner where
  | user (id : String)
  | bypass
  deriving DecidableEq, Repr

/-- The default `ownerChecker` of `PermissionsGuardClass`:
`contextOwner === requestedOwner || contextOwner === ownerBypassSymbol`. -/
def defaultOwnerChecker (contextOwner requestedOwner : Owner) : Bool :=
  decide (contextOwner = requestedOwner) || decide (contextOwner = Owner.bypass)

/-- The context stored for one guard (`PermissionsGuardContextMetadata`):
granted rules and owner.  The `rules` field is typed `string[]`, so the
runtime array-of-strings re-validation in `getContext` always passes. -/
structure PermissionContext where
  rules : List String
  owner : Owner
  deriving DecidableEq, Repr

/-- The `required.forEach(rule => parseRule(rule))` pre-pass of
`checkRequiredPermissions`: the first malformed rule aborts with its
parse error. -/
def parseAllRules : List String → Except PGError Unit
  | [] => .ok ()
  | r :: rest => do
      let _ ← parseRuleStr r
      parseAllRules rest

/-- `PermissionsGuardClass.checkRequiredPermissions`, with the active
context (as returned by `getContext`) made an explicit argument: fails
with `PermissionError('Unauthorized')` when no context is active,
otherwise parses every required rule and delegates to `match`. -/
def checkRequiredPermissions (ctx : Option PermissionContext)
    (required : List String) : Except PGError Unit :=
  match ctx with
  | none => .error (.permissionError "Unauthorized")
  | some c => do
      parseAllRules required
      let _ ← matchRules required c.rules
      pure ()

/-- `PermissionsGuardClass.checkRequiredOwner`, with the active context
and the (pluggable, here pure) `ownerChecker` made explicit arguments. -/
def checkRequiredOwner (ownerChecker : Owner → Owner → Bool)
    (ctx : Option PermissionContext) (entityOwner : Owner) : Except PGError Unit :=
  match ctx with
  | none => .error (.permissionError "Unauthorized")
  | some c =>
      if ownerChecker c.owner entityOwner then .ok ()
      else .error (.permissionError "Unauthorized owner")

deriving instance DecidableEq for Except

/-- Specification-side first match: the first granted rule, in supplied
order, whose parsed segments satisfy the required rule's segments. -/
def firstMatch (requiredRule : String) (rules : List String) : Option String :=
  rules.find? (fun rule => matchRuleParts (segs requiredRule) (segs rule))

/-- Variable bindings: a JS record from variable name to a list of string
values, modelled as an association list in key-insertion order (keys are
unique in an actual JS record). -/
abbrev VariableBindings := List (String × List String)

/-- Record lookup in a bindings record; a missing key yields the empty
list of values. -/
def getVar : VariableBindings → String → List String
  | [], _ => []
  | (k', v) :: rest, k => if k' = k then v else getVar rest k

/-- One step of `mergeVariables`: `result[key].push(...vals)`, creating
`result[key] = []` first when the key is absent (which appends a fresh
key at the end, as JS property creation does). -/
def pushVar : VariableBindings → String → List String → VariableBindings
  | [], k, vals => [(k, vals)]
  | (k', v) :: rest, k, vals =>
      if k' = k then (k', v ++ vals) :: rest
      else (k', v) :: pushVar rest k vals

/-- The per-set loop of `mergeVariables`: folds one variable set into the
accumulated result, key by key in record order. -/
def mergeVarSet (result varSet : VariableBindings) : VariableBindings :=
  varSet.foldl (fun acc kv => pushVar acc kv.1 kv.2) result

/-- `mergeVariables` from the source: per-key concatenation of the given
variable sets, in order, never deduplicated. -/
def mergeVariables (vars : List VariableBindings) : VariableBindings :=
  vars.foldl mergeVarSet []

/-- All values bound to `k` in a bindings list, concatenated in entry
order (coincides with `getVar` when the keys are unique). -/
def collectVar : VariableBindings → String → List String
  | [], _ => []
  | (k', v) :: rest, k =>
      if k' = k then v ++ collectVar rest k else collectVar rest k

/-- A full grant context as described by the spec: rules, owner and
variable bindings. -/
structure FullContext where
  rules : List String
  owner : Owner
  vars : VariableBindings
  deriving Repr

/-- Modelled from the spec: the full `install` of the Context Store
(spec §4.4).  The `runWithPermissions` under `src/` lacks the
`inheritFromCurrent` and variable-bindings parameters that the repository's
tests exercise, so the inheriting variant is modelled from the spec's
words, reusing `mergeVariables` from the source: with inheritance
requested and a parent context present, the rules are the parent-first
concatenation, the variable bindings are the `mergeVariables` merge of
parent and new bindings, and the owner is the newly supplied one; with a
parent present and inheritance not requested, install fails with the
nesting error. -/
def installContext (parent : Option FullContext) (rules : List String)
    (owner : Owner) (vars : VariableBindings)
    (inheritFromCurrent : Bool) : Except PGError FullContext :=
  match parent with
  | some p =>
      if inheritFromCurrent then
        .ok { rules := p.rules ++ rules, owner := owner,
              vars := mergeVariables [p.vars, vars] }
      else
        .error (.jsError "Nested permissions context is dangerous, and it is not allowed.")
  | none => .ok { rules := rules, owner := owner, vars := vars }

/-- A callback computation: reads and extends an execution log (recording
the observable actions of the body) and either returns a value or
propagates a thrown `PGError`. -/
def Eff (α : Type) := List String → Except PGError α × List String

/-- Return a value, leaving the log untouched. -/
def effPure {α : Type} (a : α) : Eff α := fun log => (.ok a, log)

/-- Sequencing with `await`: an error in the first computation aborts the
whole computation before the continuation can run. -/
def effBind {α β : Type} (x : Eff α) (f : α → Eff β) : Eff β := fun log =>
  match x log with
  | (.ok a, log') => f a log'
  | (.error e, log') => (.error e, log')

/-- Lift the result of a synchronous check into a computation. -/
def effOfExcept {α : Type} (x : Except PGError α) : Eff α := fun log => (x, log)

/-- An observable action of a callback body, recorded in the log. -/
def effLog (s : String) : Eff Unit := fun log => (.ok (), log ++ [s])

/-- Modelled from the spec: `runWithPermissions` with the full parameter
list — installs a context via `installContext` (failing fast on the
nesting error, before the callback can run) and otherwise runs the
callback inside the installed context. -/
def runWithPermissionsT {α : Type} (parent : Option FullContext)
    (rules : List String) (owner : Owner) (vars : VariableBindings)
    (inheritFromCurrent : Bool) (callback : FullContext → Eff α) : Eff α :=
  fun log =>
    match installContext parent rules owner vars inheritFromCurrent with
    | .error e => (.error e, log)
    | .ok c => callback c log

/-- `PermissionsGuardClass.PermissionRequired`: the wrapped method awaits
`checkRequiredPermissions` and only then delegates to the original
function. -/
def PermissionRequired {α β : Type} (required : List String)
    (ctx : Option PermissionContext) (originalFunction : α → Eff β) :
    α → Eff β :=
  fun args =>
    effBind (effOfExcept (checkRequiredPermissions ctx required))
      (fun _ => originalFunction args)

/-- `PermissionsGuard.permissionRequired` (the legacy static class under
`src/lib/components/PermissionsGuard.ts`): the `checkRequiredPermissions`
promise is created but not awaited, so its outcome — including a
rejection — is discarded and the original function runs unconditionally. -/
def permissionRequiredLegacy {α β : Type} (required : List String)
    (ctx : Option PermissionContext) (originalFunction : α → Eff β) :
    α → Eff β :=
  fun args =>
    let _ := checkRequiredPermissions ctx required
    originalFunction args

/-- A valid rule string parses to its segment list. -/
theorem parseRuleStr_eq_ok {s : String} (h : ruleOkStr s = true) :
    parseRuleStr s = .ok (segs s) := by
  simp only [ruleOkStr, Bool.and_eq_true, Bool.not_eq_true', decide_eq_false_iff_not] at h
  simp [parseRuleStr, parseRule, h.1, h.2]

/-- A malformed rule string fails parsing with the corresponding
`PermissionError` message. -/
theorem parseRuleStr_eq_error {s msg : String}
    (h : malformedMsg (.str s) = some msg) :
    parseRuleStr s = .error (.permissionError msg) := by
  simp only [malformedMsg] at h
  simp only [parseRuleStr, parseRule]
  split_ifs at h ⊢ <;> simp_all

/-- For valid rule strings, `matchRule` returns the verdict of the
segment-walking loop on the parsed segments. -/
theorem matchRule_eq_ok {r g : String} (hr : ruleOkStr r = true)
    (hg : ruleOkStr g = true) :
    matchRule r g = .ok (matchRuleParts (segs r) (segs g)) := by
  simp [matchRule, parseRuleStr_eq_ok hr, parseRuleStr_eq_ok hg, bind, Except.bind,
    pure, Except.pure]

/-- C1 counterexample: the empty rule string is non-malformed (it parses
to zero segments), yet `matchRule (required, "**")` is `false` for it;
likewise a granted `**` reached only after all required segments are
consumed (required `a` against granted `a/**`) does not match. -/
theorem C1_counterexample :
    parseRuleStr "" = .ok [] ∧ matchRule "" "**" = .ok false
      ∧ parseRuleStr "a" = .ok ["a"] ∧ matchRule "a" "a/**" = .ok false := by
  decide

/-- C1 (amended): a granted `**` segment succeeds immediately only while
at least one required segment remains unconsumed; consequently
`matchRule (required, "**")` is true exactly for non-malformed required
rules that parse to at least one segment, and is false when the required
rule parses to zero segments. -/
theorem C1_amended (s : String) (p : List String) (h : parseRuleStr s = .ok p) :
    matchRule s "**" = .ok (!p.isEmpty)
      ∧ (∀ (r : String) (rs gs : List String),
          matchRuleParts (r :: rs) ("**" :: gs) = true)
      ∧ (∀ gs : List String, matchRuleParts [] ("**" :: gs) = false) := by
  refine ⟨?_, fun r rs gs => rfl, fun gs => rfl⟩
  have h2 : parseRuleStr "**" = .ok ["**"] := by decide
  simp only [matchRule, h, h2, bind, Except.bind, pure, Except.pure]
  cases p <;> rfl

/-- Witness for `C1_amended` at the concrete required rule `a/b`. -/
theorem C1_amended_witness :
    matchRule "a/b" "**" = .ok (!(["a", "b"] : List String).isEmpty)
      ∧ (∀ (r : String) (rs gs : List String),
          matchRuleParts (r :: rs) ("**" :: gs) = true)
      ∧ (∀ gs : List String, matchRuleParts [] ("**" :: gs) = false) :=
  C1_amended "a/b" ["a", "b"] (by decide)

/-- C7: a granted `*` consumes exactly one required segment whatever its
value, so `matchRule (required, "*")` is true exactly when the required
rule parses to a single segment. -/
theorem C7_star (s : String) (p : List String) (h : parseRuleStr s = .ok p) :
    matchRule s "*" = .ok (decide (p.length = 1))
      ∧ (∀ (r : String) (rs gs : List String),
          matchRuleParts (r :: rs) ("*" :: gs) = matchRuleParts rs gs) := by
  refine ⟨?_, fun r rs gs => rfl⟩
  have h2 : parseRuleStr "*" = .ok ["*"] := by decide
  simp only [matchRule, h, h2, bind, Except.bind, pure, Except.pure]
  cases p with
  | nil => rfl
  | cons x xs => cases xs <;> rfl

/-- For valid rule strings, the inner loop of `match` returns exactly the
first granted rule that matches (in supplied order). -/
theorem findMatched_eq {r : String} (hr : ruleOkStr r = true) :
    ∀ {gs : List String}, (∀ g ∈ gs, ruleOkStr g = true) →
      findMatched r gs = .ok (firstMatch r gs) := by
  intro gs
  induction gs with
  | nil => intro _; rfl
  | cons g rest ih =>
      intro hg
      have hg1 : ruleOkStr g = true := hg g (by simp)
      have hgr : ∀ x ∈ rest, ruleOkStr x = true := fun x hx => hg x (by simp [hx])
      by_cases hb : matchRuleParts (segs r) (segs g) = true
      · simp [findMatched, matchRule_eq_ok hr hg1, bind, Except.bind, hb, firstMatch,
          List.find?, pure, Except.pure]
      · simp only [Bool.not_eq_true] at hb
        simp [findMatched, matchRule_eq_ok hr hg1, bind, Except.bind, hb, firstMatch,
          List.find?, ih hgr]

/-- For valid rule strings, the accumulation loop of `match` produces the
`notMatched` sublist and the matched pairs, both in required-rule order. -/
theorem matchLoop_eq {gs : List String} (hg : ∀ g ∈ gs, ruleOkStr g = true) :
    ∀ {reqs : List String}, (∀ r ∈ reqs, ruleOkStr r = true) →
      matchLoop gs reqs = .ok
        (reqs.filter (fun r => (firstMatch r gs).isNone),
         reqs.filterMap (fun r => (firstMatch r gs).map (fun g => (r, g)))) := by
  intro reqs
  induction reqs with
  | nil => intro _; rfl
  | cons r rest ih =>
      intro hr
      have h1 : ruleOkStr r = true := hr r (by simp)
      have h2 : ∀ x ∈ rest, ruleOkStr x = true := fun x hx => hr x (by simp [hx])
      simp only [matchLoop, findMatched_eq h1 hg, ih h2, bind, Except.bind]
      cases hF : firstMatch r gs <;>
        simp [hF, List.filter_cons, List.filterMap_cons, pure, Except.pure]

/-- C3: `match` evaluates each required rule against the granted rules in
supplied order with first-match-wins; the required rules with no matching
granted rule form the `notMatched` list (in order), and the whole check
fails with `PermissionRuleError` carrying the full required list and the
`notMatched` sublist exactly when that list is non-empty, returning the
matched pairs otherwise. -/
theorem C3_matchRules (reqs gs : List String)
    (hr : ∀ r ∈ reqs, ruleOkStr r = true) (hg : ∀ g ∈ gs, ruleOkStr g = true) :
    matchRules reqs gs =
      if (reqs.filter (fun r => (firstMatch r gs).isNone)).isEmpty then
        .ok (reqs.filterMap (fun r => (firstMatch r gs).map (fun g => (r, g))))
      else
        .error (.permissionRuleError reqs
          (reqs.filter (fun r => (firstMatch r gs).isNone))) := by
  simp only [matchRules, matchLoop_eq hg hr, bind, Except.bind]
  split <;> rfl

/-- Witness for `C3_matchRules`: required `entity/write` matches the
second granted rule `entity/*` (first-match iteration still finds it),
`admin` matches nothing, and the check fails with `PermissionRuleError`
carrying the full required list and `notMatched = [admin]`. -/
theorem C3_matchRules_witness :
    matchRules ["entity/write", "admin"] ["entity/read", "entity/*"] =
      if ((["entity/write", "admin"] : List String).filter
            (fun r => (firstMatch r ["entity/read", "entity/*"]).isNone)).isEmpty then
        .ok ((["entity/write", "admin"] : List String).filterMap
          (fun r => (firstMatch r ["entity/read", "entity/*"]).map (fun g => (r, g))))
      else
        .error (.permissionRuleError ["entity/write", "admin"]
          ((["entity/write", "admin"] : List String).filter
            (fun r => (firstMatch r ["entity/read", "entity/*"]).isNone))) :=
  C3_matchRules ["entity/write", "admin"] ["entity/read", "entity/*"]
    (by decide) (by decide)

/-- C10: the empty required set is vacuously satisfied under any active
context (even one whose granted rule list is empty), while with no active
context the check still fails with the `Unauthorized` `PermissionError`. -/
theorem C10_empty_required (ctx : PermissionContext) :
    checkRequiredPermissions (some ctx) [] = .ok ()
      ∧ checkRequiredPermissions none [] = .error (.permissionError "Unauthorized") :=
  ⟨rfl, rfl⟩

/-- The `forEach` parse pre-pass skips over a prefix of valid rules. -/
theorem parseAllRules_append {pre l : List String}
    (hpre : ∀ r ∈ pre, ruleOkStr r = true) :
    parseAllRules (pre ++ l) = parseAllRules l := by
  induction pre with
  | nil => rfl
  | cons r rest ih =>
      have h1 : ruleOkStr r = true := hpre r (by simp)
      have h2 : ∀ x ∈ rest, ruleOkStr x = true := fun x hx => hpre x (by simp [hx])
      simp only [List.cons_append, parseAllRules, parseRuleStr_eq_ok h1, bind,
        Except.bind]
      exact ih h2

/-- C4: a rule value that is not a string, or is longer than 2048
characters, or contains a newline, tab or carriage return, fails parsing
with the malformed-rule `PermissionError` carrying the corresponding
message — never with `PermissionRuleError` — and a permission check whose
required list contains such a rule fails with that same error whatever
the active context's granted rules are (in particular even when a granted
rule would match), as long as the rules before it are well-formed. -/
theorem C4_malformed (x : RuleInput) (msg : String)
    (h : malformedMsg x = some msg) :
    parseRule x = .error (.permissionError msg)
      ∧ (∀ req nm, parseRule x ≠ .error (.permissionRuleError req nm))
      ∧ (∀ s, x = RuleInput.str s → ∀ (c : PermissionContext) (pre post : List String),
          (∀ r ∈ pre, ruleOkStr r = true) →
          checkRequiredPermissions (some c) (pre ++ s :: post)
            = .error (.permissionError msg)) := by
  have hmain : parseRule x = .error (.permissionError msg) := by
    cases x with
    | nonString =>
        simp only [malformedMsg, Option.some.injEq] at h
        simp [parseRule, h]
    | str s => exact parseRuleStr_eq_error h
  refine ⟨hmain, ?_, ?_⟩
  · intro req nm heq
    rw [hmain] at heq
    simp at heq
  · rintro s rfl c pre post hpre
    have hs : parseRuleStr s = .error (.permissionError msg) := hmain
    simp only [checkRequiredPermissions, parseAllRules_append hpre, parseAllRules,
      hs, bind, Except.bind]

/-- Witness for `C4_malformed`: a required list containing `a\tb` fails
the check with the invalid-characters `PermissionError`, even though the
context's granted rules would match the surrounding required rules. -/
theorem C4_malformed_witness :
    checkRequiredPermissions (some ⟨["entity/read"], Owner.user "u"⟩)
        (["entity/read"] ++ "a\tb" :: ["entity/read"])
      = .error (.permissionError "Invalid characters in permission rule") :=
  (C4_malformed (.str "a\tb") "Invalid characters in permission rule"
      (by decide)).2.2 "a\tb" rfl ⟨["entity/read"], Owner.user "u"⟩
    ["entity/read"] ["entity/read"] (by decide)

/-- C6: `checkRequiredOwner` fails with `Unauthorized` when no context is
active; with an active context it succeeds exactly when the configured
owner-comparison policy accepts and fails with `Unauthorized owner`
otherwise; the default policy accepts whenever the context owner is the
bypass sentinel, and on ordinary owners it is exact equality. -/
theorem C6_checkRequiredOwner :
    (∀ (checker : Owner → Owner → Bool) (o : Owner),
        checkRequiredOwner checker none o = .error (.permissionError "Unauthorized"))
      ∧ (∀ (checker : Owner → Owner → Bool) (c : PermissionContext) (o : Owner),
          checkRequiredOwner checker (some c) o =
            if checker c.owner o then .ok ()
            else .error (.permissionError "Unauthorized owner"))
      ∧ (∀ o : Owner, defaultOwnerChecker Owner.bypass o = true)
      ∧ (∀ a b : String,
          defaultOwnerChecker (Owner.user a) (Owner.user b) = true ↔ a = b) := by
  refine ⟨fun checker o => rfl, fun checker c o => rfl, fun o => ?_, fun a b => ?_⟩
  · simp [defaultOwnerChecker]
  · simp [defaultOwnerChecker]

/-- Pushing values for one key changes lookups only at that key, where it
appends them. -/
theorem getVar_pushVar (acc : VariableBindings) (k' : String)
    (vals : List String) (k : String) :
    getVar (pushVar acc k' vals) k =
      if k' = k then getVar acc k ++ vals else getVar acc k := by
  induction acc with
  | nil => simp only [pushVar, getVar]; split_ifs <;> simp [getVar]
  | cons kv rest ih =>
      obtain ⟨k₀, v₀⟩ := kv
      simp only [pushVar]
      split_ifs with h1 <;> simp only [getVar] <;> split_ifs <;> simp_all [getVar]

/-- Folding a variable set into an accumulator appends, per key, all the
values the set binds for that key. -/
theorem getVar_mergeVarSet (varSet : VariableBindings) :
    ∀ (acc : VariableBindings) (k : String),
      getVar (mergeVarSet acc varSet) k = getVar acc k ++ collectVar varSet k := by
  induction varSet with
  | nil => intro acc k; simp [mergeVarSet, collectVar]
  | cons kv rest ih =>
      intro acc k
      obtain ⟨k₀, v₀⟩ := kv
      simp only [mergeVarSet, List.foldl] at ih ⊢
      rw [ih, getVar_pushVar]
      simp only [collectVar]
      split_ifs <;> simp [List.append_assoc]

/-- In a bindings list without a binding for `k`, nothing is collected. -/
theorem collectVar_eq_nil {n : VariableBindings} {k : String}
    (h : k ∉ n.map Prod.fst) : collectVar n k = [] := by
  induction n with
  | nil => rfl
  | cons kv rest ih =>
      obtain ⟨k₀, v₀⟩ := kv
      simp only [List.map_cons, List.mem_cons] at h
      push_neg at h
      have hne : k₀ ≠ k := fun hk => h.1 hk.symm
      simp [collectVar, hne, ih h.2]

/-- With unique keys, collecting coincides with record lookup. -/
theorem collectVar_eq_getVar {n : VariableBindings}
    (h : (n.map Prod.fst).Nodup) : ∀ k, collectVar n k = getVar n k := by
  induction n with
  | nil => intro k; rfl
  | cons kv rest ih =>
      intro k
      obtain ⟨k₀, v₀⟩ := kv
      simp only [List.map_cons, List.nodup_cons] at h
      simp only [collectVar, getVar]
      split_ifs with hk
      · subst hk; simp [collectVar_eq_nil h.1]
      · exact ih h.2 k

/-- C2: opening a grant scope with `inheritFromCurrent` while a parent
context exists installs a context whose rule set is the parent's rules
followed by the new rules, whose variable bindings are the per-key
concatenation (parent first) of parent and new bindings, and whose owner
is the newly supplied owner, not the parent's. -/
theorem C2_inherit (p : FullContext) (rules : List String) (owner : Owner)
    (vars : VariableBindings)
    (hp : (p.vars.map Prod.fst).Nodup)
    (hv : (vars.map Prod.fst).Nodup) :
    ∃ c, installContext (some p) rules owner vars true = .ok c
      ∧ c.rules = p.rules ++ rules
      ∧ c.owner = owner
      ∧ ∀ k, getVar c.vars k = getVar p.vars k ++ getVar vars k := by
  refine ⟨_, rfl, rfl, rfl, fun k => ?_⟩
  show getVar (mergeVariables [p.vars, vars]) k = _
  simp only [mergeVariables, List.foldl]
  rw [getVar_mergeVarSet, getVar_mergeVarSet]
  simp [getVar, collectVar_eq_getVar hp, collectVar_eq_getVar hv]

/-- Witness for `C2_inherit`: a parent binding `x ↦ [1, 2]` layered with
a new binding `x ↦ [3]` yields `x ↦ [1, 2, 3]`, parent rules come first,
and the owner is the newly supplied one. -/
theorem C2_inherit_witness :
    ∃ c, installContext
        (some ⟨["entity/read"], Owner.user "parent", [("x", ["1", "2"])]⟩)
        ["entity/write"] (Owner.user "child") [("x", ["3"])] true = .ok c
      ∧ c.rules = ["entity/read"] ++ ["entity/write"]
      ∧ c.owner = Owner.user "child"
      ∧ ∀ k, getVar c.vars k =
          getVar [("x", ["1", "2"])] k ++ getVar [("x", ["3"])] k :=
  C2_inherit ⟨["entity/read"], Owner.user "parent", [("x", ["1", "2"])]⟩
    ["entity/write"] (Owner.user "child") [("x", ["3"])] (by decide) (by decide)

/-- C5: opening a grant scope without requesting inheritance while a
parent context is active fails with the nesting error, before the
callback body can execute (the log is untouched and the outcome does not
depend on the callback). -/
theorem C5_nesting {α : Type} (p : FullContext) (rules : List String)
    (owner : Owner) (vars : VariableBindings)
    (callback : FullContext → Eff α) (log : List String) :
    runWithPermissionsT (some p) rules owner vars false callback log =
      (.error (.jsError "Nested permissions context is dangerous, and it is not allowed."),
       log) := rfl

/-- C8: evaluation at the failing input.  With no active context the
check denies with `Unauthorized`; the awaited wrapper
(`PermissionsGuardClass.PermissionRequired`) propagates the denial and
leaves the log untouched — the body never ran — but the legacy
`PermissionsGuard.permissionRequired` wrapper, which does not await the
check, runs the original body anyway and reports its result. -/
theorem C8_unawaited_check_bug :
    checkRequiredPermissions none ["entity/read"]
        = .error (.permissionError "Unauthorized")
      ∧ permissionRequiredLegacy ["entity/read"] none
          (fun _ : Unit => effLog "body ran") () []
        = (.ok (), ["body ran"])
      ∧ PermissionRequired ["entity/read"] none
          (fun _ : Unit => effLog "body ran") () []
        = (.error (.permissionError "Unauthorized"), []) :=
  ⟨rfl, rfl, rfl⟩

/-- The awaited wrapper of `PermissionsGuardClass` does satisfy the
claimed contract: every invocation runs the permission check first, a
denial is propagated with the log untouched whatever the body is, and on
success the wrapped call behaves as the original body. -/
theorem PermissionRequired_guards {α β : Type} (required : List String)
    (ctx : Option PermissionContext) (originalFunction : α → Eff β)
    (args : α) (log : List String) :
    (∀ e, checkRequiredPermissions ctx required = .error e →
        PermissionRequired required ctx originalFunction args log = (.error e, log))
      ∧ (checkRequiredPermissions ctx required = .ok () →
        PermissionRequired required ctx originalFunction args log
          = originalFunction args log) := by
  constructor
  · intro e he
    simp [PermissionRequired, effBind, effOfExcept, he]
  · intro he
    simp [PermissionRequired, effBind, effOfExcept, he]

/-- Witness for `C7_star` at the concrete required rules `entity`. -/
theorem C7_star_witness :
    matchRule "entity" "*" = .ok (decide ((["entity"] : List String).length = 1))
      ∧ (∀ (r : String) (rs gs : List String),
          matchRuleParts (r :: rs) ("*" :: gs) = matchRuleParts rs gs) :=
  C7_star "entity" ["entity"] (by decide)
